import Mathlib

/-!
Shallow embedding of the layer stack manager in `src/layers.rs` of the
kanata (ktrl-lineage) repository: the merged-view data model, the lock
table, and the layer activation engine, together with theorems settling
the specification claims about them.

Rust machine conventions used throughout:
* `KeyCode` is embedded as `Nat`; validity of a code is an explicit
  predicate `validKey : Nat → Bool` over `[0, KEY_MAX)`, mirroring that
  `KeyCode::try_from` is partial on that range.
* A Rust `panic!` / failed `assert!` / out-of-bounds index is modelled by
  an operation returning `none`; the successful result is `some state`.
* `HashMap` values iterated by the engine are embedded as association
  lists; the engine only writes each key's own merged slot, so list order
  matches any hash iteration order for the properties proved here.
-/

namespace Ktrl

/-- Effect: `Effect::Key(code)` is the only effect constructor the manager itself
produces (the identity fallback). Other effects are irrelevant to it. -/
inductive Effect where
  | Key : Nat → Effect
deriving DecidableEq, Repr

/-- Action: the `Action` type of `actions.rs` as seen by the manager: an opaque tagged
variant supporting clone and equality; `Tap` and `TapHold` suffice for the
manager's own behaviour (it only ever constructs `Tap (Key k)`). -/
inductive Action where
  | Tap : Effect → Action
  | TapHold : Effect → Effect → Action
deriving DecidableEq, Repr

/-- Record `MergedKey { code, action, layer_index }`. -/
structure MergedKey where
  code : Nat
  action : Action
  layer_index : Nat
deriving DecidableEq, Repr

/-- Enum `LockOwner`. -/
inductive LockOwner where
  | LkTapHold
  | LkTapDance
  | LkSticky
deriving DecidableEq, Repr

/-- Type `Layer = HashMap<KeyCode, Action>` embedded as an association list. -/
abbrev Layer := List (Nat × Action)

/-- Record `Profile { indices, aliases }`. -/
structure Profile where
  indices : List Nat
  aliases : List String
deriving DecidableEq, Repr

/-- Association-list lookup, standing in for `HashMap::get`. -/
def lookupAssoc {α β : Type} [BEq α] (l : List (α × β)) (key : α) : Option β :=
  (l.find? (fun p => p.1 == key)).map (fun p => p.2)

/-- `HashMap::contains_key` on a layer. -/
def layerContains (layer : Layer) (code : Nat) : Bool :=
  layer.any (fun p => p.1 == code)

/-- The `LayersManager` struct (without the optional notify socket, which
is compile-gated out and carries no layer state). -/
structure LayersManager where
  merged : List (Option MergedKey)
  layers : List Layer
  layer_aliases : List (String × Nat)
  layer_profiles : List (String × Profile)
  layers_states : List Bool
  key_locks : List (Nat × LockOwner)
  global_lock : Option LockOwner
deriving DecidableEq, Repr

/-- Function `init_merged`: the identity mapping `Some (k, Tap(Key k), 0)` for every
valid code below `KEY_MAX`, `None` for invalid integers. -/
def init_merged (KEY_MAX : Nat) (validKey : Nat → Bool) : List (Option MergedKey) :=
  (List.range KEY_MAX).map (fun i =>
    if validKey i then some { code := i, action := Action.Tap (Effect.Key i), layer_index := 0 }
    else none)

/-- Constructor `LayersManager::new`: clone the configuration, identity merged view,
all layer states false, empty lock tables, no global lock. -/
def new (KEY_MAX : Nat) (validKey : Nat → Bool) (layers : List Layer)
    (layer_aliases : List (String × Nat)) (layer_profiles : List (String × Profile)) :
    LayersManager :=
  { merged := init_merged KEY_MAX validKey
    layers := layers
    layer_aliases := layer_aliases
    layer_profiles := layer_profiles
    layers_states := List.replicate layers.length false
    key_locks := []
    global_lock := none }

/-- Operation `lock_key`: `assert!(!self.key_locks.contains_key(&key))`, then insert. -/
def lock_key (mgr : LayersManager) (key : Nat) (owner : LockOwner) : Option LayersManager :=
  if (lookupAssoc mgr.key_locks key).isSome then none
  else some { mgr with key_locks := (key, owner) :: mgr.key_locks }

/-- Operation `unlock_key`: `assert!(self.key_locks[&key] == owner)` (indexing a
missing key also aborts), then remove. -/
def unlock_key (mgr : LayersManager) (key : Nat) (owner : LockOwner) : Option LayersManager :=
  match lookupAssoc mgr.key_locks key with
  | none => none
  | some o =>
    if o == owner then
      some { mgr with key_locks := mgr.key_locks.filter (fun p => !(p.1 == key)) }
    else none

/-- Operation `lock_all`: `assert!(self.global_lock.is_none())`, then set. -/
def lock_all (mgr : LayersManager) (owner : LockOwner) : Option LayersManager :=
  if mgr.global_lock.isSome then none
  else some { mgr with global_lock := some owner }

/-- Operation `unlock_all`: `assert!(self.global_lock.is_some())`, then clear. The
`_owner` argument is ignored by the source. -/
def unlock_all (mgr : LayersManager) (_owner : LockOwner) : Option LayersManager :=
  if mgr.global_lock.isSome then some { mgr with global_lock := none }
  else none

/-- Query `is_all_locked`. -/
def is_all_locked (mgr : LayersManager) : Bool :=
  mgr.global_lock.isSome

/-- Query `get`: index `merged` by the code and unwrap; `None` (invalid code) or
an out-of-range index aborts, modelled by `none`. -/
def get (mgr : LayersManager) (key : Nat) : Option MergedKey :=
  match mgr.merged[key]? with
  | some (some merged_key) => some merged_key
  | _ => none

/-- Predicate `is_overriding_key`: `candidate_layer_index >= current.layer_index`,
where `current = self.get(candidate_code)` (aborting if invalid). -/
def is_overriding_key (mgr : LayersManager) (candidate_code : Nat)
    (candidate_layer_index : Nat) : Option Bool :=
  match get mgr candidate_code with
  | none => none
  | some current => some (decide (candidate_layer_index ≥ current.layer_index))

/-- The descending scan of `get_replacement_merged_key`: for
`i in (0..current).rev()`, the first layer `layers[i]` that contains the
code supplies `(code, its action, i)` — the source does NOT consult
`layers_states` here; if no layer below contains it, the identity entry. -/
def scan_replacement (layers : List Layer) (removed_code : Nat) : Nat → Option MergedKey
  | 0 => some { code := removed_code, action := Action.Tap (Effect.Key removed_code), layer_index := 0 }
  | i + 1 =>
    match layers[i]? with
    | none => none
    | some lower_layer =>
      match lookupAssoc lower_layer removed_code with
      | some lower_action =>
        some { code := removed_code, action := lower_action, layer_index := i }
      | none => scan_replacement layers removed_code i

/-- Function `get_replacement_merged_key(self, layers, removed_code)`. -/
def get_replacement_merged_key (mgr : LayersManager) (layers : List Layer)
    (removed_code : Nat) : Option MergedKey :=
  match get mgr removed_code with
  | none => none
  | some current => scan_replacement layers removed_code current.layer_index

/-- Function `will_layer_override_held_lock`: first key of the layer that is
per-key locked, if any. -/
def will_layer_override_held_lock (mgr : LayersManager) (layer : Layer) : Option Nat :=
  (layer.find? (fun p => (lookupAssoc mgr.key_locks p.1).isSome)).map (fun p => p.1)

/-- Predicate `is_layer_change_safe`: false when globally locked, false when the
layer contains a per-key-locked key, true otherwise. -/
def is_layer_change_safe (mgr : LayersManager) (_index : Nat) (layer : Layer) : Bool :=
  if is_all_locked mgr then false
  else if (will_layer_override_held_lock mgr layer).isSome then false
  else true

/-- Assignment `self.merged[idx] = Some(entry)`, aborting on an out-of-range index. -/
def setMergedEntry (merged : List (Option MergedKey)) (idx : Nat) (entry : MergedKey) :
    Option (List (Option MergedKey)) :=
  if idx < merged.length then some (merged.set idx (some entry)) else none

/-- One iteration of the `turn_layer_on` loop body for `(code, action)`. -/
def apply_on_key (index : Nat) (mgr : LayersManager) (ca : Nat × Action) :
    Option LayersManager :=
  match is_overriding_key mgr ca.1 index with
  | none => none
  | some false => some mgr
  | some true =>
    match setMergedEntry mgr.merged ca.1 { code := ca.1, action := ca.2, layer_index := index } with
    | none => none
    | some m => some { mgr with merged := m }

/-- Operation `turn_layer_on`. -/
def turn_layer_on (mgr : LayersManager) (index : Nat) : Option LayersManager :=
  match mgr.layers_states[index]? with
  | none => none
  | some true => some mgr
  | some false =>
    match mgr.layers[index]? with
    | none => none
    | some layer =>
      if is_layer_change_safe mgr index layer then
        match layer.foldlM (apply_on_key index) mgr with
        | none => none
        | some mgr1 => some { mgr1 with layers_states := mgr1.layers_states.set index true }
      else some mgr

/-- One iteration of the `turn_layer_off` loop body for `(code, _)`. -/
def apply_off_key (mgr : LayersManager) (ca : Nat × Action) : Option LayersManager :=
  match get_replacement_merged_key mgr mgr.layers ca.1 with
  | none => none
  | some replacement_entry =>
    match setMergedEntry mgr.merged ca.1 replacement_entry with
    | none => none
    | some m => some { mgr with merged := m }

/-- Operation `turn_layer_off`. -/
def turn_layer_off (mgr : LayersManager) (index : Nat) : Option LayersManager :=
  if 0 < index then
    match mgr.layers_states[index]? with
    | none => none
    | some false => some mgr
    | some true =>
      match mgr.layers[index]? with
      | none => none
      | some layer =>
        if is_layer_change_safe mgr index layer then
          match layer.foldlM apply_off_key mgr with
          | none => none
          | some mgr1 => some { mgr1 with layers_states := mgr1.layers_states.set index false }
        else some mgr
  else some mgr

/-- Operation `init`: activate layer 0. -/
def init (mgr : LayersManager) : Option LayersManager :=
  turn_layer_on mgr 0

/-- Operation `toggle_layer`: dispatch on the current state. -/
def toggle_layer (mgr : LayersManager) (index : Nat) : Option LayersManager :=
  match mgr.layers_states[index]? with
  | none => none
  | some true => turn_layer_off mgr index
  | some false => turn_layer_on mgr index

/-- Lookup `get_idx_from_alias`. -/
def get_idx_from_alias (mgr : LayersManager) (name : String) : Option Nat :=
  lookupAssoc mgr.layer_aliases name

/-- Operation `toggle_layer_alias`: missing names are silent no-ops. -/
def toggle_layer_alias (mgr : LayersManager) (name : String) : Option LayersManager :=
  match get_idx_from_alias mgr name with
  | some idx => toggle_layer mgr idx
  | none => some mgr

/-- Operation `turn_alias_on`. -/
def turn_alias_on (mgr : LayersManager) (name : String) : Option LayersManager :=
  match get_idx_from_alias mgr name with
  | some idx => turn_layer_on mgr idx
  | none => some mgr

/-- Operation `turn_alias_off`. -/
def turn_alias_off (mgr : LayersManager) (name : String) : Option LayersManager :=
  match get_idx_from_alias mgr name with
  | some idx => turn_layer_off mgr idx
  | none => some mgr

/-- Operation `toggle_profile`: look up the profile; apply the on (or off) operation
to each listed index in order, then to each listed alias in order; a
missing profile name is a silent no-op. -/
def toggle_profile (mgr : LayersManager) (name : String) (turn_on : Bool) :
    Option LayersManager :=
  match lookupAssoc mgr.layer_profiles name with
  | some profile =>
    if turn_on then
      match profile.indices.foldlM (fun m i => turn_layer_on m i) mgr with
      | none => none
      | some mgr1 => profile.aliases.foldlM (fun m a => turn_alias_on m a) mgr1
    else
      match profile.indices.foldlM (fun m i => turn_layer_off m i) mgr with
      | none => none
      | some mgr1 => profile.aliases.foldlM (fun m a => turn_alias_off m a) mgr1
  | none => some mgr

/-- The public mutating operations of the manager. -/
inductive Op where
  | opInit
  | turnLayerOn (i : Nat)
  | turnLayerOff (i : Nat)
  | toggleLayer (i : Nat)
  | toggleLayerAlias (name : String)
  | turnAliasOn (name : String)
  | turnAliasOff (name : String)
  | toggleProfile (name : String) (turn_on : Bool)
  | lockKey (k : Nat) (o : LockOwner)
  | unlockKey (k : Nat) (o : LockOwner)
  | lockAll (o : LockOwner)
  | unlockAll (o : LockOwner)
deriving DecidableEq, Repr

/-- Dispatch an operation; `none` models a process abort. -/
def step (op : Op) (mgr : LayersManager) : Option LayersManager :=
  match op with
  | .opInit => init mgr
  | .turnLayerOn i => turn_layer_on mgr i
  | .turnLayerOff i => turn_layer_off mgr i
  | .toggleLayer i => toggle_layer mgr i
  | .toggleLayerAlias name => toggle_layer_alias mgr name
  | .turnAliasOn name => turn_alias_on mgr name
  | .turnAliasOff name => turn_alias_off mgr name
  | .toggleProfile name b => toggle_profile mgr name b
  | .lockKey k o => lock_key mgr k o
  | .unlockKey k o => unlock_key mgr k o
  | .lockAll o => lock_all mgr o
  | .unlockAll o => unlock_all mgr o

/-- Operations the spec groups as layer-changing (as opposed to the lock
lifecycle operations). -/
def Op.isLayerChange : Op → Bool
  | .opInit | .turnLayerOn _ | .turnLayerOff _ | .toggleLayer _
  | .toggleLayerAlias _ | .turnAliasOn _ | .turnAliasOff _
  | .toggleProfile _ _ => true
  | .lockKey _ _ | .unlockKey _ _ | .lockAll _ | .unlockAll _ => false

/-- States reachable from construction by any sequence of (non-aborting)
operations. -/
inductive Reachable (KEY_MAX : Nat) (validKey : Nat → Bool) (layers : List Layer)
    (layer_aliases : List (String × Nat)) (layer_profiles : List (String × Profile)) :
    LayersManager → Prop
  | base : Reachable KEY_MAX validKey layers layer_aliases layer_profiles
      (new KEY_MAX validKey layers layer_aliases layer_profiles)
  | step (op : Op) (mgr mgr' : LayersManager) :
      Reachable KEY_MAX validKey layers layer_aliases layer_profiles mgr →
      Ktrl.step op mgr = some mgr' →
      Reachable KEY_MAX validKey layers layer_aliases layer_profiles mgr'

/-! Concrete scenario used for evaluations and witnesses.

A three-code key domain (all codes valid) with three layers: layer 0 is
empty, and layers 1 and 2 both map code `1`, to distinct actions. -/

/-- Key validity predicate accepting every code. -/
def vkAll : Nat → Bool := fun _ => true

/-- Layer table: `[{}, {1 ↦ Tap(Key 2)}, {1 ↦ Tap(Key 0)}]`. -/
def cexLayers : List Layer :=
  [[], [(1, Action.Tap (Effect.Key 2))], [(1, Action.Tap (Effect.Key 0))]]

/-- Freshly constructed manager over `cexLayers`. -/
def cexNew : LayersManager := new 3 vkAll cexLayers [] []

/-- The manager after `init` (layer 0 active, nothing else). -/
def cexInit : Option LayersManager := init cexNew

/-- Next, the state after `turn_layer_on 2`. -/
def cexOn2 : Option LayersManager := cexInit.bind (fun m => turn_layer_on m 2)

/-- Next, the state after `turn_layer_off 2`. -/
def cexOff2 : Option LayersManager := cexOn2.bind (fun m => turn_layer_off m 2)

/-! Helper lemmas. -/

/-- Lemma: `setMergedEntry` keeps the length, stores the entry at its index and
leaves every other index unchanged. -/
lemma setMergedEntry_spec {merged : List (Option MergedKey)} {idx : Nat}
    {entry : MergedKey} {m : List (Option MergedKey)}
    (h : setMergedEntry merged idx entry = some m) :
    m.length = merged.length ∧ m[idx]? = some (some entry) ∧
      ∀ j, j ≠ idx → m[j]? = merged[j]? := by
  unfold setMergedEntry at h
  split at h
  · injection h with h
    subst h
    refine ⟨List.length_set .., List.getElem?_set_eq_of_lt _ ‹_›, ?_⟩
    intro j hj
    exact List.getElem?_set_ne (Ne.symm hj)
  · exact Option.noConfusion h

/-- All fields a `turn_layer_on` loop iteration leaves untouched, plus
preservation of the merged array's length. -/
def NonMergedFrame (mgr mgr' : LayersManager) : Prop :=
  mgr'.layers = mgr.layers ∧ mgr'.layer_aliases = mgr.layer_aliases ∧
    mgr'.layer_profiles = mgr.layer_profiles ∧
    mgr'.layers_states = mgr.layers_states ∧
    mgr'.key_locks = mgr.key_locks ∧ mgr'.global_lock = mgr.global_lock ∧
    mgr'.merged.length = mgr.merged.length

lemma nonMergedFrame_refl (mgr : LayersManager) : NonMergedFrame mgr mgr :=
  ⟨rfl, rfl, rfl, rfl, rfl, rfl, rfl⟩

lemma nonMergedFrame_trans {a b c : LayersManager} (h1 : NonMergedFrame a b)
    (h2 : NonMergedFrame b c) : NonMergedFrame a c := by
  obtain ⟨e1, e2, e3, e4, e5, e6, e7⟩ := h1
  obtain ⟨f1, f2, f3, f4, f5, f6, f7⟩ := h2
  exact ⟨f1.trans e1, f2.trans e2, f3.trans e3, f4.trans e4, f5.trans e5,
    f6.trans e6, f7.trans e7⟩

lemma apply_on_key_frame {index : Nat} {mgr : LayersManager} {ca : Nat × Action}
    {mgr' : LayersManager} (h : apply_on_key index mgr ca = some mgr') :
    NonMergedFrame mgr mgr' := by
  unfold apply_on_key at h
  cases h1 : is_overriding_key mgr ca.1 index with
  | none => rw [h1] at h; exact Option.noConfusion h
  | some b =>
    rw [h1] at h
    cases b with
    | false =>
      injection h with h
      subst h
      exact nonMergedFrame_refl mgr
    | true =>
      cases h2 : setMergedEntry mgr.merged ca.1
          { code := ca.1, action := ca.2, layer_index := index } with
      | none => rw [h2] at h; exact Option.noConfusion h
      | some m =>
        rw [h2] at h
        injection h with h
        subst h
        exact ⟨rfl, rfl, rfl, rfl, rfl, rfl, (setMergedEntry_spec h2).1⟩

lemma apply_off_key_frame {mgr : LayersManager} {ca : Nat × Action}
    {mgr' : LayersManager} (h : apply_off_key mgr ca = some mgr') :
    NonMergedFrame mgr mgr' := by
  unfold apply_off_key at h
  cases h1 : get_replacement_merged_key mgr mgr.layers ca.1 with
  | none => rw [h1] at h; exact Option.noConfusion h
  | some rep =>
    rw [h1] at h
    dsimp only at h
    cases h2 : setMergedEntry mgr.merged ca.1 rep with
    | none => rw [h2] at h; exact Option.noConfusion h
    | some m =>
      rw [h2] at h
      injection h with h
      subst h
      exact ⟨rfl, rfl, rfl, rfl, rfl, rfl, (setMergedEntry_spec h2).1⟩

/-- Preservation of a predicate along an `Option`-monadic fold. -/
lemma foldlM_option_preserves {α σ : Type} (P : σ → Prop) (f : σ → α → Option σ)
    (hf : ∀ s a s', P s → f s a = some s' → P s') :
    ∀ (l : List α) (s s' : σ), P s → l.foldlM f s = some s' → P s' := by
  intro l
  induction l with
  | nil =>
    intro s s' hP h
    rw [List.foldlM_nil] at h
    injection h with h
    subst h
    exact hP
  | cons a as ih =>
    intro s s' hP h
    rw [List.foldlM_cons] at h
    cases hfa : f s a with
    | none => rw [hfa] at h; exact Option.noConfusion h
    | some s1 =>
      rw [hfa] at h
      exact ih s1 s' (hf s a s1 hP hfa) h

/-- Relation preservation along an `Option`-monadic fold, for a reflexive
and transitive relation. -/
lemma foldlM_option_rel {α σ : Type} (R : σ → σ → Prop) (f : σ → α → Option σ)
    (hrefl : ∀ s, R s s) (htrans : ∀ a b c, R a b → R b c → R a c)
    (hf : ∀ s a s', f s a = some s' → R s s') :
    ∀ (l : List α) (s s' : σ), l.foldlM f s = some s' → R s s' := by
  intro l
  induction l with
  | nil =>
    intro s s' h
    rw [List.foldlM_nil] at h
    injection h with h
    subst h
    exact hrefl s
  | cons a as ih =>
    intro s s' h
    rw [List.foldlM_cons] at h
    cases hfa : f s a with
    | none => rw [hfa] at h; exact Option.noConfusion h
    | some s1 =>
      rw [hfa] at h
      exact htrans s s1 s' (hf s a s1 hfa) (ih s1 s' h)

lemma fold_on_frame {index : Nat} {layer : Layer} {mgr mgr1 : LayersManager}
    (h : layer.foldlM (apply_on_key index) mgr = some mgr1) :
    NonMergedFrame mgr mgr1 :=
  foldlM_option_rel NonMergedFrame (apply_on_key index) nonMergedFrame_refl
    (fun _ _ _ => nonMergedFrame_trans) (fun _ _ _ hs => apply_on_key_frame hs)
    layer mgr mgr1 h

lemma fold_off_frame {layer : Layer} {mgr mgr1 : LayersManager}
    (h : layer.foldlM apply_off_key mgr = some mgr1) :
    NonMergedFrame mgr mgr1 :=
  foldlM_option_rel NonMergedFrame apply_off_key nonMergedFrame_refl
    (fun _ _ _ => nonMergedFrame_trans) (fun _ _ _ hs => apply_off_key_frame hs)
    layer mgr mgr1 h

/-- Lemma: `turn_layer_off` at index 0 is the identity. -/
lemma turn_layer_off_zero (mgr : LayersManager) : turn_layer_off mgr 0 = some mgr := rfl

/-- A layer whose state is already `true` makes `turn_layer_on` a no-op. -/
lemma turn_layer_on_states_true {mgr : LayersManager} {L : Nat}
    (h : mgr.layers_states[L]? = some true) : turn_layer_on mgr L = some mgr := by
  unfold turn_layer_on
  rw [h]

/-- A layer whose state is already `false` makes `turn_layer_off` (at a
positive index) a no-op. -/
lemma turn_layer_off_states_false {mgr : LayersManager} {L : Nat}
    (hL : 0 < L) (h : mgr.layers_states[L]? = some false) :
    turn_layer_off mgr L = some mgr := by
  unfold turn_layer_off
  rw [if_pos hL, h]

lemma turn_layer_on_idem (mgr : LayersManager) (L : Nat) :
    (turn_layer_on mgr L).bind (fun m => turn_layer_on m L) = turn_layer_on mgr L := by
  cases h : turn_layer_on mgr L with
  | none => rfl
  | some mgr' =>
    show turn_layer_on mgr' L = some mgr'
    unfold turn_layer_on at h
    cases hs : mgr.layers_states[L]? with
    | none => rw [hs] at h; exact Option.noConfusion h
    | some b =>
      rw [hs] at h
      cases b with
      | true =>
        injection h with h
        subst h
        exact turn_layer_on_states_true hs
      | false =>
        cases hl : mgr.layers[L]? with
        | none => rw [hl] at h; exact Option.noConfusion h
        | some layer =>
          rw [hl] at h
          dsimp only at h
          by_cases hsafe : is_layer_change_safe mgr L layer
          · rw [if_pos hsafe] at h
            cases hf : layer.foldlM (apply_on_key L) mgr with
            | none => rw [hf] at h; exact Option.noConfusion h
            | some mgr1 =>
              rw [hf] at h
              injection h with h
              subst h
              have hframe := fold_on_frame hf
              have hlen : L < mgr1.layers_states.length := by
                rw [hframe.2.2.2.1]
                exact (List.getElem?_eq_some.mp hs).1
              exact turn_layer_on_states_true (List.getElem?_set_eq_of_lt _ hlen)
          · rw [if_neg hsafe] at h
            injection h with h
            subst h
            unfold turn_layer_on
            rw [hs, hl]
            dsimp only
            rw [if_neg hsafe]

lemma turn_layer_off_idem (mgr : LayersManager) (L : Nat) :
    (turn_layer_off mgr L).bind (fun m => turn_layer_off m L) = turn_layer_off mgr L := by
  cases h : turn_layer_off mgr L with
  | none => rfl
  | some mgr' =>
    show turn_layer_off mgr' L = some mgr'
    by_cases hL : 0 < L
    · unfold turn_layer_off at h
      rw [if_pos hL] at h
      cases hs : mgr.layers_states[L]? with
      | none => rw [hs] at h; exact Option.noConfusion h
      | some b =>
        rw [hs] at h
        cases b with
        | false =>
          injection h with h
          subst h
          exact turn_layer_off_states_false hL hs
        | true =>
          cases hl : mgr.layers[L]? with
          | none => rw [hl] at h; exact Option.noConfusion h
          | some layer =>
            rw [hl] at h
            dsimp only at h
            by_cases hsafe : is_layer_change_safe mgr L layer
            · rw [if_pos hsafe] at h
              cases hf : layer.foldlM apply_off_key mgr with
              | none => rw [hf] at h; exact Option.noConfusion h
              | some mgr1 =>
                rw [hf] at h
                injection h with h
                subst h
                have hframe := fold_off_frame hf
                have hlen : L < mgr1.layers_states.length := by
                  rw [hframe.2.2.2.1]
                  exact (List.getElem?_eq_some.mp hs).1
                exact turn_layer_off_states_false hL
                  (List.getElem?_set_eq_of_lt _ hlen)
            · rw [if_neg hsafe] at h
              injection h with h
              subst h
              unfold turn_layer_off
              rw [if_pos hL, hs, hl]
              dsimp only
              rw [if_neg hsafe]
    · have h0 : L = 0 := by omega
      subst h0
      rw [turn_layer_off_zero] at h
      injection h with h
      subst h
      exact turn_layer_off_zero mgr

/-- A held global lock makes any layer change unsafe. -/
lemma glock_blocks_change {mgr : LayersManager} {i : Nat} {layer : Layer}
    (hg : mgr.global_lock.isSome = true) : is_layer_change_safe mgr i layer = false := by
  unfold is_layer_change_safe is_all_locked
  rw [hg]
  rfl

/-- A per-key lock on a key the layer contains makes the change unsafe. -/
lemma keylock_blocks_change {mgr : LayersManager} {k idx : Nat} {o : LockOwner} {layer : Layer}
    (hk : lookupAssoc mgr.key_locks k = some o) (hc : layerContains layer k = true) :
    is_layer_change_safe mgr idx layer = false := by
  unfold is_layer_change_safe
  by_cases hg : is_all_locked mgr
  · rw [if_pos hg]
  · rw [if_neg hg]
    have hws : (will_layer_override_held_lock mgr layer).isSome = true := by
      unfold will_layer_override_held_lock
      rw [Option.isSome_map']
      refine List.find?_isSome.mpr ?_
      obtain ⟨p, hp, hpk⟩ := List.any_eq_true.mp hc
      refine ⟨p, hp, ?_⟩
      have hp1 : p.1 = k := by simpa using hpk
      rw [hp1, hk]
      rfl
    rw [hws]
    rfl

/-- Under a held global lock, a successful `turn_layer_on` changes nothing. -/
lemma glock_turn_layer_on {mgr mgr' : LayersManager} {i : Nat}
    (hg : mgr.global_lock.isSome = true) (h : turn_layer_on mgr i = some mgr') :
    mgr' = mgr := by
  unfold turn_layer_on at h
  cases hs : mgr.layers_states[i]? with
  | none => rw [hs] at h; exact Option.noConfusion h
  | some b =>
    rw [hs] at h
    cases b with
    | true =>
      injection h with h
      exact h.symm
    | false =>
      cases hl : mgr.layers[i]? with
      | none => rw [hl] at h; exact Option.noConfusion h
      | some layer =>
        rw [hl] at h
        dsimp only at h
        rw [glock_blocks_change hg] at h
        simp only [Bool.false_eq_true, if_false] at h
        injection h with h
        exact h.symm

/-- Under a held global lock, a successful `turn_layer_off` changes nothing. -/
lemma glock_turn_layer_off {mgr mgr' : LayersManager} {i : Nat}
    (hg : mgr.global_lock.isSome = true) (h : turn_layer_off mgr i = some mgr') :
    mgr' = mgr := by
  unfold turn_layer_off at h
  by_cases hi : 0 < i
  · rw [if_pos hi] at h
    cases hs : mgr.layers_states[i]? with
    | none => rw [hs] at h; exact Option.noConfusion h
    | some b =>
      rw [hs] at h
      cases b with
      | false =>
        injection h with h
        exact h.symm
      | true =>
        cases hl : mgr.layers[i]? with
        | none => rw [hl] at h; exact Option.noConfusion h
        | some layer =>
          rw [hl] at h
          dsimp only at h
          rw [glock_blocks_change hg] at h
          simp only [Bool.false_eq_true, if_false] at h
          injection h with h
          exact h.symm
  · rw [if_neg hi] at h
    injection h with h
    exact h.symm

/-- Under a held global lock, a successful `toggle_layer` changes nothing. -/
lemma glock_toggle_layer {mgr mgr' : LayersManager} {i : Nat}
    (hg : mgr.global_lock.isSome = true) (h : toggle_layer mgr i = some mgr') :
    mgr' = mgr := by
  unfold toggle_layer at h
  cases hs : mgr.layers_states[i]? with
  | none => rw [hs] at h; exact Option.noConfusion h
  | some b =>
    rw [hs] at h
    cases b with
    | true => exact glock_turn_layer_off hg h
    | false => exact glock_turn_layer_on hg h

/-- Under a held global lock, a successful `turn_alias_on` changes nothing. -/
lemma glock_turn_alias_on {mgr mgr' : LayersManager} {name : String}
    (hg : mgr.global_lock.isSome = true) (h : turn_alias_on mgr name = some mgr') :
    mgr' = mgr := by
  unfold turn_alias_on at h
  cases ha : get_idx_from_alias mgr name with
  | none =>
    rw [ha] at h
    injection h with h
    exact h.symm
  | some idx =>
    rw [ha] at h
    exact glock_turn_layer_on hg h

/-- Under a held global lock, a successful `turn_alias_off` changes nothing. -/
lemma glock_turn_alias_off {mgr mgr' : LayersManager} {name : String}
    (hg : mgr.global_lock.isSome = true) (h : turn_alias_off mgr name = some mgr') :
    mgr' = mgr := by
  unfold turn_alias_off at h
  cases ha : get_idx_from_alias mgr name with
  | none =>
    rw [ha] at h
    injection h with h
    exact h.symm
  | some idx =>
    rw [ha] at h
    exact glock_turn_layer_off hg h

/-- Under a held global lock, a successful `toggle_layer_alias` changes nothing. -/
lemma glock_toggle_layer_alias {mgr mgr' : LayersManager} {name : String}
    (hg : mgr.global_lock.isSome = true) (h : toggle_layer_alias mgr name = some mgr') :
    mgr' = mgr := by
  unfold toggle_layer_alias at h
  cases ha : get_idx_from_alias mgr name with
  | none =>
    rw [ha] at h
    injection h with h
    exact h.symm
  | some idx =>
    rw [ha] at h
    exact glock_toggle_layer hg h

/-- Identity-preserving folds: if every successful step returns its input
state unchanged (given the lock on that state), so does the whole fold. -/
lemma glock_fold {α : Type} {f : LayersManager → α → Option LayersManager}
    (hf : ∀ (m : LayersManager) (a : α) (m' : LayersManager),
      m.global_lock.isSome = true → f m a = some m' → m' = m) :
    ∀ (l : List α) (mgr mgr' : LayersManager), mgr.global_lock.isSome = true →
      l.foldlM f mgr = some mgr' → mgr' = mgr := by
  intro l
  induction l with
  | nil =>
    intro mgr mgr' _ h
    rw [List.foldlM_nil] at h
    injection h with h
    exact h.symm
  | cons a as ih =>
    intro mgr mgr' hg h
    rw [List.foldlM_cons] at h
    cases hfa : f mgr a with
    | none => rw [hfa] at h; exact Option.noConfusion h
    | some m1 =>
      rw [hfa] at h
      rw [hf mgr a m1 hg hfa] at h
      exact ih mgr mgr' hg h

/-- Under a held global lock, a successful `toggle_profile` changes nothing. -/
lemma glock_toggle_profile {mgr mgr' : LayersManager} {name : String} {b : Bool}
    (hg : mgr.global_lock.isSome = true) (h : toggle_profile mgr name b = some mgr') :
    mgr' = mgr := by
  unfold toggle_profile at h
  cases hp : lookupAssoc mgr.layer_profiles name with
  | none =>
    rw [hp] at h
    injection h with h
    exact h.symm
  | some profile =>
    rw [hp] at h
    dsimp only at h
    cases b with
    | true =>
      rw [if_pos rfl] at h
      cases hf : profile.indices.foldlM (fun m i => turn_layer_on m i) mgr with
      | none => rw [hf] at h; exact Option.noConfusion h
      | some mgr1 =>
        rw [hf] at h
        have h1 : mgr1 = mgr :=
          glock_fold (fun m a m' hgl hs => glock_turn_layer_on hgl hs)
            profile.indices mgr mgr1 hg hf
        subst h1
        exact glock_fold (fun m a m' hgl hs => glock_turn_alias_on hgl hs)
          profile.aliases mgr1 mgr' hg h
    | false =>
      rw [if_neg (by simp)] at h
      cases hf : profile.indices.foldlM (fun m i => turn_layer_off m i) mgr with
      | none => rw [hf] at h; exact Option.noConfusion h
      | some mgr1 =>
        rw [hf] at h
        have h1 : mgr1 = mgr :=
          glock_fold (fun m a m' hgl hs => glock_turn_layer_off hgl hs)
            profile.indices mgr mgr1 hg hf
        subst h1
        exact glock_fold (fun m a m' hgl hs => glock_turn_alias_off hgl hs)
          profile.aliases mgr1 mgr' hg h

/-- Under a held global lock, every successful layer-changing operation
returns the manager bitwise unchanged. -/
lemma glock_step {mgr mgr' : LayersManager} {op : Op}
    (hop : op.isLayerChange = true) (hg : mgr.global_lock.isSome = true)
    (h : step op mgr = some mgr') : mgr' = mgr := by
  cases op with
  | opInit => exact glock_turn_layer_on hg h
  | turnLayerOn i => exact glock_turn_layer_on hg h
  | turnLayerOff i => exact glock_turn_layer_off hg h
  | toggleLayer i => exact glock_toggle_layer hg h
  | toggleLayerAlias name => exact glock_toggle_layer_alias hg h
  | turnAliasOn name => exact glock_turn_alias_on hg h
  | turnAliasOff name => exact glock_turn_alias_off hg h
  | toggleProfile name b => exact glock_toggle_profile hg h
  | lockKey k o => exact absurd hop (by simp [Op.isLayerChange])
  | unlockKey k o => exact absurd hop (by simp [Op.isLayerChange])
  | lockAll o => exact absurd hop (by simp [Op.isLayerChange])
  | unlockAll o => exact absurd hop (by simp [Op.isLayerChange])

/-- With a per-key lock on a key of the layer, a successful
`turn_layer_on` is rejected as a whole: the manager is unchanged. -/
lemma keylock_turn_layer_on {mgr mgr' : LayersManager} {k idx : Nat} {o : LockOwner}
    {layer : Layer} (hk : lookupAssoc mgr.key_locks k = some o)
    (hl : mgr.layers[idx]? = some layer) (hc : layerContains layer k = true)
    (h : turn_layer_on mgr idx = some mgr') : mgr' = mgr := by
  unfold turn_layer_on at h
  cases hs : mgr.layers_states[idx]? with
  | none => rw [hs] at h; exact Option.noConfusion h
  | some b =>
    rw [hs] at h
    cases b with
    | true =>
      injection h with h
      exact h.symm
    | false =>
      rw [hl] at h
      dsimp only at h
      rw [keylock_blocks_change hk hc] at h
      simp only [Bool.false_eq_true, if_false] at h
      injection h with h
      exact h.symm

/-- With a per-key lock on a key of the layer, a successful
`turn_layer_off` is rejected as a whole: the manager is unchanged. -/
lemma keylock_turn_layer_off {mgr mgr' : LayersManager} {k idx : Nat} {o : LockOwner}
    {layer : Layer} (hk : lookupAssoc mgr.key_locks k = some o)
    (hl : mgr.layers[idx]? = some layer) (hc : layerContains layer k = true)
    (h : turn_layer_off mgr idx = some mgr') : mgr' = mgr := by
  unfold turn_layer_off at h
  by_cases hi : 0 < idx
  · rw [if_pos hi] at h
    cases hs : mgr.layers_states[idx]? with
    | none => rw [hs] at h; exact Option.noConfusion h
    | some b =>
      rw [hs] at h
      cases b with
      | false =>
        injection h with h
        exact h.symm
      | true =>
        rw [hl] at h
        dsimp only at h
        rw [keylock_blocks_change hk hc] at h
        simp only [Bool.false_eq_true, if_false] at h
        injection h with h
        exact h.symm
  · rw [if_neg hi] at h
    injection h with h
    exact h.symm

/-! Claim theorems. -/

/-- Claim C1 (evaluation at the failing input): "Highest active layer wins"
fails on the code: starting from `init` over `cexLayers` (no locks) and
running `turn_layer_on 2; turn_layer_off 2`, the only active layer is 0
and it does not contain code 1, so the claim demands
`get(1) = (1, Tap(Key 1), 0)`; the code instead leaves the entry of the
inactive layer 1, `(1, Tap(Key 2), 1)`, because
`get_replacement_merged_key` never consults `layers_states`. -/
theorem c1_highest_active_wins_fails :
    cexOff2.map (fun m => (get m 1, m.layers_states)) =
      some (some { code := 1, action := Action.Tap (Effect.Key 2), layer_index := 1 },
        [true, false, false]) ∧
    ({ code := 1, action := Action.Tap (Effect.Key 2), layer_index := 1 } : MergedKey) ≠
      { code := 1, action := Action.Tap (Effect.Key 1), layer_index := 0 } := by
  decide

/-- Claim C2 (evaluation at the failing input): The deactivation replacement
rule fails on the code: in the state `cexOn2` (layer 0 active and empty,
layer 1 **inactive**, layer 2 active and the winner for code 1),
`turn_layer_off 2` should, per the claim, find no layer below the winner
that is both active and contains code 1 and hence install the identity
`(1, Tap(Key 1), 0)`; the code installs the inactive layer 1's entry
`(1, Tap(Key 2), 1)` because the scan checks containment only. -/
theorem c2_replacement_rule_fails :
    (cexOn2.bind (fun m => turn_layer_off m 2)).map (fun m => get m 1) =
      some (some { code := 1, action := Action.Tap (Effect.Key 2), layer_index := 1 }) ∧
    cexOn2.map (fun m => m.layers_states[1]?) = some (some false) := by
  decide

/-- Claim C3 (evaluation at the failing input): On/off symmetry fails on the
code: from the reachable, lock-free state `cexInit`, the pair
`turn_layer_on 2; turn_layer_off 2` does not restore `merged` — code 1's
entry ends as the inactive layer 1's `(1, Tap(Key 2), 1)` instead of the
original identity entry. -/
theorem c3_on_off_symmetry_fails :
    cexInit.map (fun m => (m.key_locks, m.global_lock)) = some ([], none) ∧
    ((cexInit.bind (fun m => turn_layer_on m 2)).bind
        (fun m => turn_layer_off m 2)).map (fun m => m.merged) ≠
      cexInit.map (fun m => m.merged) := by
  decide

/-- Claim C4: lock containment. While the global lock is held, no
layer-changing operation (`turn_layer_on`, `turn_layer_off`,
`toggle_layer`, the alias and profile operations, `init`) changes
`merged` or `layers_states`; while a per-key lock on key `k` is held,
every layer activation or deactivation whose layer contains `k` is
rejected as a whole, leaving the manager bitwise unchanged. -/
theorem c4_lock_containment :
    (∀ (mgr mgr' : LayersManager) (op : Op), op.isLayerChange = true →
      mgr.global_lock.isSome = true → step op mgr = some mgr' →
      mgr'.merged = mgr.merged ∧ mgr'.layers_states = mgr.layers_states) ∧
    (∀ (mgr mgr' : LayersManager) (k idx : Nat) (o : LockOwner) (layer : Layer),
      lookupAssoc mgr.key_locks k = some o → mgr.layers[idx]? = some layer →
      layerContains layer k = true →
      (turn_layer_on mgr idx = some mgr' → mgr' = mgr) ∧
      (turn_layer_off mgr idx = some mgr' → mgr' = mgr)) := by
  constructor
  · intro mgr mgr' op hop hg h
    rw [glock_step hop hg h]
    exact ⟨rfl, rfl⟩
  · intro mgr mgr' k idx o layer hk hl hc
    exact ⟨keylock_turn_layer_on hk hl hc, keylock_turn_layer_off hk hl hc⟩

/-- Manager `cexNew` with the global lock held by the tap-hold machine. -/
def mgrGL : LayersManager := { cexNew with global_lock := some LockOwner.LkTapHold }

/-- Manager `cexNew` with a per-key lock on code 1 held by the tap-hold machine. -/
def mgrKL : LayersManager := { cexNew with key_locks := [(1, LockOwner.LkTapHold)] }

/-- Witness for C4: both halves applied at concrete locked managers —
`turn_layer_on 2` under the global lock, and under a per-key lock on
code 1 (contained in layer 2). -/
theorem c4_lock_containment_witness :
    ((Op.turnLayerOn 2).isLayerChange = true ∧ mgrGL.global_lock.isSome = true ∧
      step (Op.turnLayerOn 2) mgrGL = some mgrGL ∧
      mgrGL.merged = mgrGL.merged ∧ mgrGL.layers_states = mgrGL.layers_states) ∧
    (lookupAssoc mgrKL.key_locks 1 = some LockOwner.LkTapHold ∧
      mgrKL.layers[2]? = some [(1, Action.Tap (Effect.Key 0))] ∧
      layerContains [(1, Action.Tap (Effect.Key 0))] 1 = true ∧
      turn_layer_on mgrKL 2 = some mgrKL ∧
      (turn_layer_on mgrKL 2 = some mgrKL → mgrKL = mgrKL)) :=
  ⟨⟨rfl, rfl, by decide, (c4_lock_containment.1 mgrGL mgrGL (Op.turnLayerOn 2) rfl rfl
      (by decide))⟩,
    ⟨rfl, by decide, rfl, by decide,
      (c4_lock_containment.2 mgrKL mgrKL 1 2 LockOwner.LkTapHold
        [(1, Action.Tap (Effect.Key 0))] rfl (by decide) rfl).1⟩⟩

/-- Shape invariant of the merged view: it has length `KEY_MAX`; every
valid code below `KEY_MAX` holds a `some` entry recording its own code;
every invalid code in range holds `none`. -/
@[reducible] def MergedInv (KEY_MAX : Nat) (validKey : Nat → Bool)
    (merged : List (Option MergedKey)) : Prop :=
  merged.length = KEY_MAX ∧
  ∀ k, k < KEY_MAX →
    (validKey k = true → (merged[k]?).map (Option.map MergedKey.code) = some (some k)) ∧
    (validKey k = false → merged[k]? = some none)

/-- The freshly constructed merged view satisfies the shape invariant. -/
lemma init_merged_inv (KEY_MAX : Nat) (validKey : Nat → Bool) :
    MergedInv KEY_MAX validKey (init_merged KEY_MAX validKey) := by
  constructor
  · unfold init_merged
    rw [List.length_map, List.length_range]
  · intro k hk
    have hget : (init_merged KEY_MAX validKey)[k]? =
        some (if validKey k then
          some { code := k, action := Action.Tap (Effect.Key k), layer_index := 0 }
        else none) := by
      unfold init_merged
      rw [List.getElem?_map, List.getElem?_range hk]
      rfl
    constructor <;> intro hv <;> rw [hget] <;> simp [hv]

/-- Claim C5 (amended): fatal precondition violations, exactly. `lock_key`
aborts iff the key is already locked; `unlock_key k o` aborts iff `k`'s
lock is not currently held by `o` (in particular also when `k` is not
locked at all); `lock_all` aborts iff a global lock already exists;
`unlock_all` aborts iff **no** global lock is held — the owner argument is
ignored, so a wrong-owner `unlock_all` succeeds; `get` aborts iff the code
is not a valid key. No other circumstance aborts these operations. -/
theorem c5_fatal_preconditions_amended (KEY_MAX : Nat) (validKey : Nat → Bool)
    (mgr : LayersManager) (hinv : MergedInv KEY_MAX validKey mgr.merged) :
    (∀ (k : Nat) (o : LockOwner),
      lock_key mgr k o = none ↔ (lookupAssoc mgr.key_locks k).isSome = true) ∧
    (∀ (k : Nat) (o : LockOwner),
      unlock_key mgr k o = none ↔ lookupAssoc mgr.key_locks k ≠ some o) ∧
    (∀ o : LockOwner, lock_all mgr o = none ↔ mgr.global_lock.isSome = true) ∧
    (∀ o : LockOwner, unlock_all mgr o = none ↔ mgr.global_lock = none) ∧
    (∀ k : Nat, get mgr k = none ↔ ¬(k < KEY_MAX ∧ validKey k = true)) := by
  obtain ⟨hlen, hforall⟩ := hinv
  refine ⟨?_, ?_, ?_, ?_, ?_⟩
  · intro k o
    unfold lock_key
    by_cases hk : (lookupAssoc mgr.key_locks k).isSome = true
    · rw [if_pos hk]
      simp [hk]
    · rw [if_neg hk]
      simp [hk]
  · intro k o
    unfold unlock_key
    cases hk : lookupAssoc mgr.key_locks k with
    | none => simp
    | some o' =>
      dsimp only
      by_cases ho : (o' == o) = true
      · rw [if_pos ho]
        have : o' = o := by simpa using ho
        subst this
        simp
      · rw [if_neg ho]
        have : o' ≠ o := by simpa using ho
        simp [this]
  · intro o
    unfold lock_all
    by_cases hg : mgr.global_lock.isSome = true
    · rw [if_pos hg]
      simp [hg]
    · rw [if_neg hg]
      simp [hg]
  · intro o
    unfold unlock_all
    cases hg : mgr.global_lock with
    | none => simp
    | some o' => simp
  · intro k
    by_cases hk : k < KEY_MAX
    · cases hv : validKey k with
      | true =>
        have hmap := (hforall k hk).1 hv
        cases hm : mgr.merged[k]? with
        | none => rw [hm] at hmap; exact Option.noConfusion hmap
        | some e =>
          rw [hm] at hmap
          cases e with
          | none => simp at hmap
          | some mk =>
            unfold get
            rw [hm]
            simp [hk, hv]
      | false =>
        have hnone := (hforall k hk).2 hv
        unfold get
        rw [hnone]
        simp [hv]
    · have hm : mgr.merged[k]? = none := List.getElem?_eq_none (by omega)
      unfold get
      rw [hm]
      simp [hk]

/-- Claim C5 counterexample: the claim as stated is false. From a reachable
state whose global lock is held by `LkTapHold`, calling `unlock_all` with
the different owner `LkTapDance` does **not** abort — it succeeds and
clears the lock (returning the manager to `cexNew`), contradicting the
claim that a wrong-owner unlock aborts the process. -/
theorem c5_fatal_preconditions_counterexample :
    (lock_all cexNew LockOwner.LkTapHold).bind
        (fun m => unlock_all m LockOwner.LkTapDance) = some cexNew ∧
    some LockOwner.LkTapHold ≠ some LockOwner.LkTapDance := by
  decide

/-- Witness for the amended C5 at the concrete manager `cexNew` (whose
merged view satisfies the shape invariant for `KEY_MAX = 3`, all codes
valid), read off at code 5, an invalid code. -/
theorem c5_fatal_preconditions_amended_witness :
    MergedInv 3 vkAll cexNew.merged ∧
    (get cexNew 5 = none ↔ ¬(5 < 3 ∧ vkAll 5 = true)) :=
  ⟨by decide,
    (c5_fatal_preconditions_amended 3 vkAll cexNew (by decide)).2.2.2.2 5⟩

/-- A successful `get` exposes the underlying merged slot. -/
lemma get_eq_some {mgr : LayersManager} {c : Nat} {cur : MergedKey}
    (h : get mgr c = some cur) : mgr.merged[c]? = some (some cur) := by
  unfold get at h
  cases hm : mgr.merged[c]? with
  | none => rw [hm] at h; exact Option.noConfusion h
  | some e =>
    rw [hm] at h
    cases e with
    | none => exact Option.noConfusion h
    | some mk =>
      injection h with h
      rw [h]

/-- Under the shape invariant, a code `get` succeeds on is in range and
valid. -/
lemma get_some_valid {K : Nat} {vk : Nat → Bool} {mgr : LayersManager} {c : Nat}
    {cur : MergedKey} (hinv : MergedInv K vk mgr.merged) (h : get mgr c = some cur) :
    c < K ∧ vk c = true := by
  obtain ⟨hlen, hforall⟩ := hinv
  have hm := get_eq_some h
  have hck : c < K := by
    have hcl : c < mgr.merged.length := (List.getElem?_eq_some.mp hm).1
    omega
  refine ⟨hck, ?_⟩
  cases hv : vk c with
  | true => rfl
  | false =>
    have hnone := (hforall c hck).2 hv
    rw [hm] at hnone
    injection hnone with hnone
    exact Option.noConfusion hnone

/-- Writing, at a valid in-range code, an entry recording that code keeps
the shape invariant. -/
lemma mergedInv_set {K : Nat} {vk : Nat → Bool} {merged m : List (Option MergedKey)}
    {c : Nat} {entry : MergedKey} (hinv : MergedInv K vk merged)
    (hcode : entry.code = c) (hvalid : vk c = true)
    (h : setMergedEntry merged c entry = some m) : MergedInv K vk m := by
  obtain ⟨hlen, hforall⟩ := hinv
  obtain ⟨hlen2, hat, hother⟩ := setMergedEntry_spec h
  refine ⟨hlen2.trans hlen, ?_⟩
  intro k hk
  by_cases hkc : k = c
  · subst hkc
    constructor
    · intro _
      rw [hat]
      simp [hcode]
    · intro hv
      rw [hvalid] at hv
      exact Bool.noConfusion hv
  · rw [hother k hkc]
    exact hforall k hk

/-- Every entry `scan_replacement` produces records the removed code. -/
lemma scan_replacement_code {layers : List Layer} {c : Nat} :
    ∀ {n : Nat} {rep : MergedKey}, scan_replacement layers c n = some rep →
      rep.code = c := by
  intro n
  induction n with
  | zero =>
    intro rep h
    unfold scan_replacement at h
    injection h with h
    rw [← h]
  | succ i ih =>
    intro rep h
    unfold scan_replacement at h
    cases h1 : layers[i]? with
    | none => rw [h1] at h; exact Option.noConfusion h
    | some lower =>
      rw [h1] at h
      dsimp only at h
      cases h2 : lookupAssoc lower c with
      | some a =>
        rw [h2] at h
        injection h with h
        rw [← h]
      | none =>
        rw [h2] at h
        exact ih h

/-- Every entry `get_replacement_merged_key` produces records the removed
code. -/
lemma get_replacement_code {mgr : LayersManager} {layers : List Layer} {c : Nat}
    {rep : MergedKey} (h : get_replacement_merged_key mgr layers c = some rep) :
    rep.code = c := by
  unfold get_replacement_merged_key at h
  cases hg : get mgr c with
  | none => rw [hg] at h; exact Option.noConfusion h
  | some cur =>
    rw [hg] at h
    exact scan_replacement_code h

lemma apply_on_key_inv {K : Nat} {vk : Nat → Bool} {index : Nat}
    {mgr mgr' : LayersManager} {ca : Nat × Action}
    (hinv : MergedInv K vk mgr.merged) (h : apply_on_key index mgr ca = some mgr') :
    MergedInv K vk mgr'.merged := by
  unfold apply_on_key at h
  cases h1 : is_overriding_key mgr ca.1 index with
  | none => rw [h1] at h; exact Option.noConfusion h
  | some b =>
    rw [h1] at h
    cases b with
    | false =>
      injection h with h
      rw [← h]
      exact hinv
    | true =>
      cases h2 : setMergedEntry mgr.merged ca.1
          { code := ca.1, action := ca.2, layer_index := index } with
      | none => rw [h2] at h; exact Option.noConfusion h
      | some m =>
        rw [h2] at h
        injection h with h
        rw [← h]
        have hcur : ∃ cur, get mgr ca.1 = some cur := by
          unfold is_overriding_key at h1
          cases hg : get mgr ca.1 with
          | none => rw [hg] at h1; exact Option.noConfusion h1
          | some cur => exact ⟨cur, rfl⟩
        obtain ⟨cur, hg⟩ := hcur
        exact mergedInv_set (c := ca.1) hinv rfl (get_some_valid hinv hg).2 h2

lemma apply_off_key_inv {K : Nat} {vk : Nat → Bool} {mgr mgr' : LayersManager}
    {ca : Nat × Action} (hinv : MergedInv K vk mgr.merged)
    (h : apply_off_key mgr ca = some mgr') : MergedInv K vk mgr'.merged := by
  unfold apply_off_key at h
  cases h1 : get_replacement_merged_key mgr mgr.layers ca.1 with
  | none => rw [h1] at h; exact Option.noConfusion h
  | some rep =>
    rw [h1] at h
    dsimp only at h
    cases h2 : setMergedEntry mgr.merged ca.1 rep with
    | none => rw [h2] at h; exact Option.noConfusion h
    | some m =>
      rw [h2] at h
      injection h with h
      rw [← h]
      have hcur : ∃ cur, get mgr ca.1 = some cur := by
        unfold get_replacement_merged_key at h1
        cases hg : get mgr ca.1 with
        | none => rw [hg] at h1; exact Option.noConfusion h1
        | some cur => exact ⟨cur, rfl⟩
      obtain ⟨cur, hg⟩ := hcur
      exact mergedInv_set hinv (get_replacement_code h1)
        (get_some_valid hinv hg).2 h2

lemma turn_layer_on_inv {K : Nat} {vk : Nat → Bool} {mgr mgr' : LayersManager}
    {i : Nat} (hinv : MergedInv K vk mgr.merged)
    (h : turn_layer_on mgr i = some mgr') : MergedInv K vk mgr'.merged := by
  unfold turn_layer_on at h
  cases hs : mgr.layers_states[i]? with
  | none => rw [hs] at h; exact Option.noConfusion h
  | some b =>
    rw [hs] at h
    cases b with
    | true =>
      injection h with h
      rw [← h]
      exact hinv
    | false =>
      cases hl : mgr.layers[i]? with
      | none => rw [hl] at h; exact Option.noConfusion h
      | some layer =>
        rw [hl] at h
        dsimp only at h
        by_cases hsafe : is_layer_change_safe mgr i layer
        · rw [if_pos hsafe] at h
          cases hf : layer.foldlM (apply_on_key i) mgr with
          | none => rw [hf] at h; exact Option.noConfusion h
          | some mgr1 =>
            rw [hf] at h
            injection h with h
            rw [← h]
            exact foldlM_option_preserves (fun s => MergedInv K vk s.merged) _
              (fun s a s' hP hstep => apply_on_key_inv hP hstep) layer mgr mgr1 hinv hf
        · rw [if_neg hsafe] at h
          injection h with h
          rw [← h]
          exact hinv

lemma turn_layer_off_inv {K : Nat} {vk : Nat → Bool} {mgr mgr' : LayersManager}
    {i : Nat} (hinv : MergedInv K vk mgr.merged)
    (h : turn_layer_off mgr i = some mgr') : MergedInv K vk mgr'.merged := by
  unfold turn_layer_off at h
  by_cases hi : 0 < i
  · rw [if_pos hi] at h
    cases hs : mgr.layers_states[i]? with
    | none => rw [hs] at h; exact Option.noConfusion h
    | some b =>
      rw [hs] at h
      cases b with
      | false =>
        injection h with h
        rw [← h]
        exact hinv
      | true =>
        cases hl : mgr.layers[i]? with
        | none => rw [hl] at h; exact Option.noConfusion h
        | some layer =>
          rw [hl] at h
          dsimp only at h
          by_cases hsafe : is_layer_change_safe mgr i layer
          · rw [if_pos hsafe] at h
            cases hf : layer.foldlM apply_off_key mgr with
            | none => rw [hf] at h; exact Option.noConfusion h
            | some mgr1 =>
              rw [hf] at h
              injection h with h
              rw [← h]
              exact foldlM_option_preserves (fun s => MergedInv K vk s.merged) _
                (fun s a s' hP hstep => apply_off_key_inv hP hstep) layer mgr mgr1 hinv hf
          · rw [if_neg hsafe] at h
            injection h with h
            rw [← h]
            exact hinv
  · rw [if_neg hi] at h
    injection h with h
    rw [← h]
    exact hinv

lemma toggle_layer_inv {K : Nat} {vk : Nat → Bool} {mgr mgr' : LayersManager}
    {i : Nat} (hinv : MergedInv K vk mgr.merged)
    (h : toggle_layer mgr i = some mgr') : MergedInv K vk mgr'.merged := by
  unfold toggle_layer at h
  cases hs : mgr.layers_states[i]? with
  | none => rw [hs] at h; exact Option.noConfusion h
  | some b =>
    rw [hs] at h
    cases b with
    | true => exact turn_layer_off_inv hinv h
    | false => exact turn_layer_on_inv hinv h

lemma turn_alias_on_inv {K : Nat} {vk : Nat → Bool} {mgr mgr' : LayersManager}
    {name : String} (hinv : MergedInv K vk mgr.merged)
    (h : turn_alias_on mgr name = some mgr') : MergedInv K vk mgr'.merged := by
  unfold turn_alias_on at h
  cases ha : get_idx_from_alias mgr name with
  | none =>
    rw [ha] at h
    injection h with h
    rw [← h]
    exact hinv
  | some idx =>
    rw [ha] at h
    exact turn_layer_on_inv hinv h

lemma turn_alias_off_inv {K : Nat} {vk : Nat → Bool} {mgr mgr' : LayersManager}
    {name : String} (hinv : MergedInv K vk mgr.merged)
    (h : turn_alias_off mgr name = some mgr') : MergedInv K vk mgr'.merged := by
  unfold turn_alias_off at h
  cases ha : get_idx_from_alias mgr name with
  | none =>
    rw [ha] at h
    injection h with h
    rw [← h]
    exact hinv
  | some idx =>
    rw [ha] at h
    exact turn_layer_off_inv hinv h

lemma toggle_layer_alias_inv {K : Nat} {vk : Nat → Bool} {mgr mgr' : LayersManager}
    {name : String} (hinv : MergedInv K vk mgr.merged)
    (h : toggle_layer_alias mgr name = some mgr') : MergedInv K vk mgr'.merged := by
  unfold toggle_layer_alias at h
  cases ha : get_idx_from_alias mgr name with
  | none =>
    rw [ha] at h
    injection h with h
    rw [← h]
    exact hinv
  | some idx =>
    rw [ha] at h
    exact toggle_layer_inv hinv h

lemma toggle_profile_inv {K : Nat} {vk : Nat → Bool} {mgr mgr' : LayersManager}
    {name : String} {b : Bool} (hinv : MergedInv K vk mgr.merged)
    (h : toggle_profile mgr name b = some mgr') : MergedInv K vk mgr'.merged := by
  unfold toggle_profile at h
  cases hp : lookupAssoc mgr.layer_profiles name with
  | none =>
    rw [hp] at h
    injection h with h
    rw [← h]
    exact hinv
  | some profile =>
    rw [hp] at h
    dsimp only at h
    cases b with
    | true =>
      rw [if_pos rfl] at h
      cases hf : profile.indices.foldlM (fun m i => turn_layer_on m i) mgr with
      | none => rw [hf] at h; exact Option.noConfusion h
      | some mgr1 =>
        rw [hf] at h
        have hinv1 : MergedInv K vk mgr1.merged :=
          foldlM_option_preserves (fun s => MergedInv K vk s.merged) _
            (fun s a s' hP hstep => turn_layer_on_inv hP hstep)
            profile.indices mgr mgr1 hinv hf
        exact foldlM_option_preserves (fun s => MergedInv K vk s.merged) _
          (fun s a s' hP hstep => turn_alias_on_inv hP hstep)
          profile.aliases mgr1 mgr' hinv1 h
    | false =>
      rw [if_neg (by simp)] at h
      cases hf : profile.indices.foldlM (fun m i => turn_layer_off m i) mgr with
      | none => rw [hf] at h; exact Option.noConfusion h
      | some mgr1 =>
        rw [hf] at h
        have hinv1 : MergedInv K vk mgr1.merged :=
          foldlM_option_preserves (fun s => MergedInv K vk s.merged) _
            (fun s a s' hP hstep => turn_layer_off_inv hP hstep)
            profile.indices mgr mgr1 hinv hf
        exact foldlM_option_preserves (fun s => MergedInv K vk s.merged) _
          (fun s a s' hP hstep => turn_alias_off_inv hP hstep)
          profile.aliases mgr1 mgr' hinv1 h

/-- Lock lifecycle operations never touch `merged`. -/
lemma lock_ops_merged_eq {mgr mgr' : LayersManager} {k : Nat} {o : LockOwner} :
    (lock_key mgr k o = some mgr' → mgr'.merged = mgr.merged) ∧
    (unlock_key mgr k o = some mgr' → mgr'.merged = mgr.merged) ∧
    (lock_all mgr o = some mgr' → mgr'.merged = mgr.merged) ∧
    (unlock_all mgr o = some mgr' → mgr'.merged = mgr.merged) := by
  refine ⟨?_, ?_, ?_, ?_⟩
  · intro h
    unfold lock_key at h
    split at h
    · exact Option.noConfusion h
    · injection h with h
      rw [← h]
  · intro h
    unfold unlock_key at h
    cases hk : lookupAssoc mgr.key_locks k with
    | none => rw [hk] at h; exact Option.noConfusion h
    | some o' =>
      rw [hk] at h
      dsimp only at h
      split at h
      · injection h with h
        rw [← h]
      · exact Option.noConfusion h
  · intro h
    unfold lock_all at h
    split at h
    · exact Option.noConfusion h
    · injection h with h
      rw [← h]
  · intro h
    unfold unlock_all at h
    split at h
    · injection h with h
      rw [← h]
    · exact Option.noConfusion h

/-- The shape invariant is preserved by every (non-aborting) operation. -/
lemma step_inv {K : Nat} {vk : Nat → Bool} {op : Op} {mgr mgr' : LayersManager}
    (hinv : MergedInv K vk mgr.merged) (h : step op mgr = some mgr') :
    MergedInv K vk mgr'.merged := by
  cases op with
  | opInit => exact turn_layer_on_inv hinv h
  | turnLayerOn i => exact turn_layer_on_inv hinv h
  | turnLayerOff i => exact turn_layer_off_inv hinv h
  | toggleLayer i => exact toggle_layer_inv hinv h
  | toggleLayerAlias name => exact toggle_layer_alias_inv hinv h
  | turnAliasOn name => exact turn_alias_on_inv hinv h
  | turnAliasOff name => exact turn_alias_off_inv hinv h
  | toggleProfile name b => exact toggle_profile_inv hinv h
  | lockKey k o => rw [lock_ops_merged_eq.1 h]; exact hinv
  | unlockKey k o => rw [(lock_ops_merged_eq (k := k) (o := o)).2.1 h]; exact hinv
  | lockAll o => rw [(lock_ops_merged_eq (k := 0) (o := o)).2.2.1 h]; exact hinv
  | unlockAll o => rw [(lock_ops_merged_eq (k := 0) (o := o)).2.2.2 h]; exact hinv

/-- The shape invariant holds in every reachable state. -/
lemma reachable_inv {K : Nat} {vk : Nat → Bool} {layers : List Layer}
    {la : List (String × Nat)} {lp : List (String × Profile)} {mgr : LayersManager}
    (h : Reachable K vk layers la lp mgr) : MergedInv K vk mgr.merged := by
  induction h with
  | base => exact init_merged_inv K vk
  | step op mgr mgr' hr hs ih => exact step_inv ih hs

/-- Claim C7: total coverage. In every state reachable from construction by
any sequence of (non-aborting) operations, every valid key code `k` below
`KEY_MAX` has a `Some` merged entry whose `code` field equals `k`, so
`get k` returns a `MergedKey` with `code = k`. -/
theorem c7_total_coverage {KEY_MAX : Nat} {validKey : Nat → Bool}
    {layers : List Layer} {la : List (String × Nat)} {lp : List (String × Profile)}
    {mgr : LayersManager} (h : Reachable KEY_MAX validKey layers la lp mgr)
    (k : Nat) (hk : k < KEY_MAX) (hv : validKey k = true) :
    ∃ mk, get mgr k = some mk ∧ mk.code = k := by
  obtain ⟨hlen, hforall⟩ := reachable_inv h
  have hmap := (hforall k hk).1 hv
  cases hm : mgr.merged[k]? with
  | none => rw [hm] at hmap; exact Option.noConfusion hmap
  | some e =>
    rw [hm] at hmap
    cases e with
    | none => simp at hmap
    | some mk =>
      refine ⟨mk, ?_, ?_⟩
      · unfold get
        rw [hm]
      · simpa using hmap

/-- Witness for C7 at the freshly constructed manager over `cexLayers`
(reachable by `Reachable.base`) and the valid code 1. -/
theorem c7_total_coverage_witness :
    (1 < 3 ∧ vkAll 1 = true) ∧ ∃ mk, get cexNew 1 = some mk ∧ mk.code = 1 :=
  ⟨⟨by decide, rfl⟩, c7_total_coverage Reachable.base 1 (by decide) rfl⟩

/-- Claim C6: `turn_layer_on L` is idempotent, `turn_layer_off L` is
idempotent, and `init` (which activates layer 0) is idempotent across
repeated calls — also when the single call aborts, in which case the
doubled call aborts identically. -/
theorem c6_idempotence (mgr : LayersManager) (L : Nat) :
    (turn_layer_on mgr L).bind (fun m => turn_layer_on m L) = turn_layer_on mgr L ∧
    (turn_layer_off mgr L).bind (fun m => turn_layer_off m L) = turn_layer_off mgr L ∧
    (init mgr).bind init = init mgr :=
  ⟨turn_layer_on_idem mgr L, turn_layer_off_idem mgr L, turn_layer_on_idem mgr 0⟩

/-- **C8**: `turn_layer_off 0` never changes any state — it returns the
manager bitwise unchanged (merged, layers_states, and lock tables alike)
and raises no error. -/
theorem c8_base_immovable (mgr : LayersManager) : turn_layer_off mgr 0 = some mgr :=
  turn_layer_off_zero mgr

/-- Claim C9: an alias name absent from the alias table makes
`turn_alias_on`, `turn_alias_off` and `toggle_layer_alias` silent no-ops,
and a profile name absent from the profile table makes `toggle_profile` a
silent no-op: each returns the manager unchanged and raises no error. -/
theorem c9_unknown_names_noop (mgr : LayersManager) (aname pname : String) (b : Bool)
    (ha : lookupAssoc mgr.layer_aliases aname = none)
    (hp : lookupAssoc mgr.layer_profiles pname = none) :
    turn_alias_on mgr aname = some mgr ∧ turn_alias_off mgr aname = some mgr ∧
      toggle_layer_alias mgr aname = some mgr ∧ toggle_profile mgr pname b = some mgr := by
  refine ⟨?_, ?_, ?_, ?_⟩
  · unfold turn_alias_on get_idx_from_alias
    rw [ha]
  · unfold turn_alias_off get_idx_from_alias
    rw [ha]
  · unfold toggle_layer_alias get_idx_from_alias
    rw [ha]
  · unfold toggle_profile
    rw [hp]

/-- Witness for C9 at the concrete manager `cexNew` and the name
`"missing"`, absent from its (empty) alias and profile tables. -/
theorem c9_unknown_names_noop_witness :
    lookupAssoc cexNew.layer_aliases "missing" = none ∧
    lookupAssoc cexNew.layer_profiles "missing" = none ∧
    (turn_alias_on cexNew "missing" = some cexNew ∧
      turn_alias_off cexNew "missing" = some cexNew ∧
      toggle_layer_alias cexNew "missing" = some cexNew ∧
      toggle_profile cexNew "missing" true = some cexNew) :=
  ⟨rfl, rfl, c9_unknown_names_noop cexNew "missing" "missing" true rfl rfl⟩

/-- Claim C10: for an index at or beyond the number of layers (with the
state table sized to the layer table, as construction guarantees),
`turn_layer_on`, `toggle_layer`, and — for positive indices —
`turn_layer_off` abort on the out-of-bounds `layers_states` read instead
of being no-ops: index validity is an unchecked precondition. -/
theorem c10_oob_aborts (mgr : LayersManager) (i : Nat)
    (hlen : mgr.layers_states.length = mgr.layers.length)
    (hi : mgr.layers.length ≤ i) :
    turn_layer_on mgr i = none ∧ toggle_layer mgr i = none ∧
      (0 < i → turn_layer_off mgr i = none) := by
  have hs : mgr.layers_states[i]? = none := List.getElem?_eq_none (by omega)
  refine ⟨?_, ?_, fun hpos => ?_⟩
  · unfold turn_layer_on
    rw [hs]
  · unfold toggle_layer
    rw [hs]
  · unfold turn_layer_off
    rw [if_pos hpos, hs]

/-- Witness for C10 at the concrete manager `cexNew` (three layers) and
index 5. -/
theorem c10_oob_aborts_witness :
    cexNew.layers_states.length = cexNew.layers.length ∧ cexNew.layers.length ≤ 5 ∧
    (turn_layer_on cexNew 5 = none ∧ toggle_layer cexNew 5 = none ∧
      (0 < 5 → turn_layer_off cexNew 5 = none)) :=
  ⟨by decide, by decide, c10_oob_aborts cexNew 5 (by decide) (by decide)⟩

end Ktrl
